import Mathlib

/-!
Shallow embedding of the qtql key-value store (kv_store.go, operator.go).

Machine time (`time.Time`) is modelled as `Nat` instants; the Go zero
`time.Time` (produced when ttl == 0, tested with `IsZero`) is modelled as
`Option Nat` with `none` standing for the zero time.  Durations
(`time.Duration`) are modelled as `Nat`.  The Go built-in map is modelled
as an association list with `mapGet` / `mapSet` / `mapDel` mirroring
`m[k]`, `m[k] = v` and `delete(m, k)`.  File IO in `log_op` may fail; that
outcome is passed in explicitly as a `wal_outcome`, and the WAL file
content is carried as the list of appended lines.
-/

structure key where
  name : String
deriving DecidableEq

structure value where
  data : String
  expires_at : Option Nat
deriving DecidableEq

structure wal where
  filename : String
  entries : List String
deriving DecidableEq

structure Store where
  data : List (key × value)
  wal : wal
deriving DecidableEq

inductive operation_type where
  | SET
  | DELETE
  | EXPIRE
deriving DecidableEq

/-- Outcome of the file-system part of a WAL append (open/write/flush/fsync):
either every step succeeded, or some step returned an error. -/
inductive wal_outcome where
  | ok
  | io_error (msg : String)
deriving DecidableEq

/-- Go map read `v, ok := m[k]`. -/
def mapGet (k : key) : List (key × value) → Option value
  | [] => none
  | (k', v) :: rest => if k' = k then some v else mapGet k rest

/-- Go map write `m[k] = v`. -/
def mapSet (k : key) (v : value) : List (key × value) → List (key × value)
  | [] => [(k, v)]
  | (k', v') :: rest => if k' = k then (k, v) :: rest else (k', v') :: mapSet k v rest

/-- Go map delete `delete(m, k)`. -/
def mapDel (k : key) : List (key × value) → List (key × value)
  | [] => []
  | (k', v') :: rest => if k' = k then mapDel k rest else (k', v') :: mapDel k rest

/-- Stand-in for Go `time.Duration.String()` (e.g. "5m0s"); no claim depends
on the exact decimal rendering, only on which records are appended. -/
def duration_string (d : Nat) : String :=
  toString d ++ "ns"

/-- The line built by `wal.log_op` (kv_store.go lines 74-84): note the SET
case appends `"SET " + key.name + " " + value + "\n"` -- no CRC32 field and
no ttl token. -/
def log_entry (k : key) (op : operation_type) (v : String) (ttl : Nat) : String :=
  match op with
  | operation_type.SET => "SET " ++ k.name ++ " " ++ v ++ "\n"
  | operation_type.DELETE => "DELETE " ++ k.name ++ "\n"
  | operation_type.EXPIRE => "EXPIRE " ++ k.name ++ " " ++ duration_string ttl ++ "\n"

/-- `wal.log_op`: on IO success the record line is appended to the file and
`nil` is returned; on IO failure the error is returned.  (On a Go flush or
fsync failure the on-disk bytes are indeterminate; no claim depends on the
file content of a failed append, so the model leaves it unchanged.) -/
def wal.log_op (w : wal) (k : key) (op : operation_type) (v : String) (ttl : Nat)
    (oc : wal_outcome) : Except String wal :=
  match oc with
  | wal_outcome.io_error e => Except.error e
  | wal_outcome.ok => Except.ok { w with entries := w.entries ++ [log_entry k op v ttl] }

/-- `New_Store` (kv_store.go lines 46-52): builds an empty map and a fresh
`wal` handle holding only the filename.  `disk` models whatever WAL file
already exists at that path; the Go constructor opens no file and performs
no replay, so the pre-existing content is never read. -/
def New_Store (wal_filename : String) (disk : List String) : Store :=
  { data := [], wal := { filename := wal_filename, entries := disk } }

/-- `Store.Get` (kv_store.go lines 112-126): absent keys report not-found;
a present key with a non-zero `expires_at` strictly in the past (Go
`time.Now().After(val.expires_at)`) also reports not-found. -/
def Store.Get (s : Store) (k : key) (now : Nat) : String × Bool :=
  match mapGet k s.data with
  | none => ("", false)
  | some val =>
    match val.expires_at with
    | none => (val.data, true)
    | some e => if e < now then ("", false) else (val.data, true)

/-- `Store.Set` (kv_store.go lines 128-146): WAL append first; on append
failure the error is returned before the map is touched; on success the
entry is stored with `expires_at` zero when ttl == 0, else now + ttl. -/
def Store.Set (s : Store) (k : key) (ttl : Nat) (v : String) (now : Nat)
    (oc : wal_outcome) : Option String × Store :=
  match wal.log_op s.wal k operation_type.SET v ttl oc with
  | Except.error e => (some e, s)
  | Except.ok w2 =>
    (none,
      { s with
        data := mapSet k
          { data := v, expires_at := if ttl = 0 then none else some (now + ttl) } s.data,
        wal := w2 })

/-- `Store.Delete` (kv_store.go lines 148-158): WAL append first; on append
failure the error is returned before the map is touched. -/
def Store.Delete (s : Store) (k : key) (oc : wal_outcome) : Option String × Store :=
  match wal.log_op s.wal k operation_type.DELETE "" 0 oc with
  | Except.error e => (some e, s)
  | Except.ok w2 => (none, { s with data := mapDel k s.data, wal := w2 })

/-- `Store.Expire` (kv_store.go lines 160-176): a missing key returns the
NotFound error before any WAL append is attempted; otherwise WAL append
first, and on success `expires_at` is unconditionally replaced by
now + ttl. -/
def Store.Expire (s : Store) (k : key) (ttl : Nat) (now : Nat)
    (oc : wal_outcome) : Option String × Store :=
  match mapGet k s.data with
  | none => (some "the key does not exist", s)
  | some val =>
    match wal.log_op s.wal k operation_type.EXPIRE "" ttl oc with
    | Except.error e => (some e, s)
    | Except.ok w2 =>
      (none,
        { s with
          data := mapSet k { val with expires_at := some (now + ttl) } s.data,
          wal := w2 })

/-- `Store.Exists` (kv_store.go lines 178-184): bare map-membership test,
no expiry check. -/
def Store.Exists (s : Store) (k : key) : Bool :=
  (mapGet k s.data).isSome

/-- Models Go `strings.ToUpper` on the ASCII verbs used by `Process`. -/
def upper_char (c : Char) : Char :=
  if 'a' ≤ c ∧ c ≤ 'z' then Char.ofNat (c.toNat - 32) else c

def to_upper (s : String) : String :=
  { data := s.data.map upper_char }

/-- `Store.Process` (kv_store.go lines 210-316), restricted to its store
effect (log output dropped; Get/Ttl/Exists are read-only so those branches
leave the store unchanged).  `pd` models `time.ParseDuration`.  SET rejects
fewer than 3 tokens (`len(input_parts) < 3`) and parses a ttl only when
there are exactly 4 tokens (`len(input_parts) == 4`); with 5 or more tokens
the extras are ignored and the ttl stays 0.  DELETE/GET/TTL/EXISTS require
exactly 2 tokens and EXPIRE exactly 3.  The verb is upper-cased before
matching.  (Go indexes `input_parts[0]` and would panic on an empty slice;
the shell never passes one, and no claim exercises that case.) -/
def Store.Process (s : Store) (input_parts : List String) (pd : String → Option Nat)
    (now : Nat) (oc : wal_outcome) : Store :=
  match input_parts with
  | [] => s
  | p0 :: rest =>
    let cmd := to_upper p0
    if cmd = "SET" then
      match rest with
      | k :: v :: ttl_rest =>
        match ttl_rest with
        | [t] =>
          match pd t with
          | none => s
          | some ttl => (Store.Set s { name := k } ttl v now oc).2
        | _ => (Store.Set s { name := k } 0 v now oc).2
      | _ => s
    else if cmd = "GET" then s
    else if cmd = "DELETE" then
      match rest with
      | [k] => (Store.Delete s { name := k } oc).2
      | _ => s
    else if cmd = "EXPIRE" then
      match rest with
      | [k, t] =>
        match pd t with
        | none => s
        | some ttl => (Store.Expire s { name := k } ttl now oc).2
      | _ => s
    else if cmd = "TTL" then s
    else if cmd = "EXISTS" then s
    else s

structure Row where
  Key : key
  Value : value
deriving DecidableEq

structure KVScan where
  store : Store
  keys : List key
  pos : Nat
deriving DecidableEq

def NewKVScan (store : Store) : KVScan :=
  { store := store, keys := [], pos := 0 }

/-- The capture condition of `KVScan.Open` (operator.go line 58):
`v.expires_at.IsZero() || v.expires_at.After(now)`. -/
def scan_keep (v : value) (now : Nat) : Bool :=
  match v.expires_at with
  | none => true
  | some e => now < e

/-- `KVScan.Open` (operator.go lines 52-64): walks the map and keeps the
keys satisfying `scan_keep`, resetting the position to 0.  (Go map
iteration order is unspecified; the model iterates the association list in
order, which is one admissible order.) -/
def KVScan.Open (kv : KVScan) (now : Nat) : KVScan :=
  { kv with
    keys := (kv.store.data.filter fun p => scan_keep p.2 now).map Prod.fst,
    pos := 0 }

/-- `KVScan.Next` (operator.go lines 67-77): end-of-stream once the
position passes the captured keys, otherwise the row for the current key
(Go `kv.store.data[key]` yields the zero value if absent) and the position
advances. -/
def KVScan.Next (kv : KVScan) : Option Row × KVScan :=
  match kv.keys[kv.pos]? with
  | none => (none, kv)
  | some k =>
    (some { Key := k, Value := (mapGet k kv.store.data).getD { data := "", expires_at := none } },
      { kv with pos := kv.pos + 1 })

/-- Repeated `Next` pulls on a KVScan until the first end-of-stream,
collecting the emitted rows; `fuel` bounds the number of pulls. -/
def drain_scan : Nat → KVScan → List Row
  | 0, _ => []
  | Nat.succ fuel, kv =>
    match KVScan.Next kv with
    | (none, _) => []
    | (some r, kv2) => r :: drain_scan fuel kv2

/-- One answer of a Limit child to a `Next()` pull: a row, end-of-stream
(`nil, nil`), or an error (`nil, err`). -/
inductive next_res where
  | row (r : Row)
  | eos
  | err (e : String)
deriving DecidableEq

/-- `Limit.Next` (operator.go lines 115-126) against a child modelled as
the list of answers it would give to successive pulls (an exhausted list
keeps answering end-of-stream).  Result: the answer returned to the
caller, the new counter, the child answers still pending, and whether the
child was pulled.  The counter increments exactly when `row != nil && err
== nil`. -/
def limit_next (mx count : Nat) (child : List next_res) :
    next_res × Nat × List next_res × Bool :=
  if mx ≤ count then (next_res.eos, count, child, false)
  else
    match child with
    | [] => (next_res.eos, count, [], true)
    | next_res.row x :: rest => (next_res.row x, count + 1, rest, true)
    | next_res.eos :: rest => (next_res.eos, count, rest, true)
    | next_res.err e :: rest => (next_res.err e, count, rest, true)

/-- A caller that pulls a Limit until the first non-row answer (the normal
early-termination pathway): emitted rows and number of child pulls. -/
def run_limit : Nat → Nat → Nat → List next_res → List Row × Nat
  | 0, _, _, _ => ([], 0)
  | Nat.succ fuel, mx, count, child =>
    match limit_next mx count child with
    | (next_res.row x, c2, rest, _) =>
      let r := run_limit fuel mx c2 rest
      (x :: r.1, r.2 + 1)
    | (_, _, _, pulled) => ([], if pulled then 1 else 0)

/-- A caller that keeps pulling a Limit for `fuel` calls even past
end-of-stream, collecting every row answer: emitted rows and child pulls. -/
def run_limit_all : Nat → Nat → Nat → List next_res → List Row × Nat
  | 0, _, _, _ => ([], 0)
  | Nat.succ fuel, mx, count, child =>
    match limit_next mx count child with
    | (res, c2, rest, pulled) =>
      let r := run_limit_all fuel mx c2 rest
      ((match res with | next_res.row x => [x] | _ => []) ++ r.1,
        r.2 + (if pulled then 1 else 0))

/-- `Filter.Next` (operator.go lines 90-100) against a pure child modelled
as the list of rows it will emit before end-of-stream: loops pulling the
child until the predicate holds, returning that row and the child rows
still pending; end-of-stream once the child is exhausted. -/
def filter_next (pred : Row → Bool) : List Row → Option Row × List Row
  | [] => (none, [])
  | r :: rest => if pred r then (some r, rest) else filter_next pred rest

/-- Repeated `Next` pulls on a Filter until the first end-of-stream,
collecting the emitted rows. -/
def run_filter (pred : Row → Bool) : Nat → List Row → List Row
  | 0, _ => []
  | Nat.succ fuel, child =>
    match filter_next pred child with
    | (none, _) => []
    | (some r, rest) => r :: run_filter pred fuel rest

theorem mapGet_mapSet_self (k : key) (v : value) (l : List (key × value)) :
    mapGet k (mapSet k v l) = some v := by
  induction l with
  | nil => simp [mapSet, mapGet]
  | cons hd tl ih =>
    obtain ⟨k', v'⟩ := hd
    by_cases h : k' = k
    · simp [mapSet, mapGet, h]
    · simp [mapSet, mapGet, h, ih]

theorem mapGet_of_mem_nodup (k : key) (v : value) (l : List (key × value))
    (hnd : (l.map Prod.fst).Nodup) (hmem : (k, v) ∈ l) : mapGet k l = some v := by
  induction l with
  | nil => simp at hmem
  | cons hd tl ih =>
    obtain ⟨k', v'⟩ := hd
    rw [List.map_cons, List.nodup_cons] at hnd
    rcases List.mem_cons.mp hmem with heq | htl
    · cases heq
      simp [mapGet]
    · have hne : k' ≠ k := by
        intro h
        subst h
        exact hnd.1 (List.mem_map.mpr ⟨(k', v), htl, rfl⟩)
      simp only [mapGet, if_neg hne]
      exact ih hnd.2 htl

theorem drain_scan_eq (st : Store) (ks : List key) (p fuel : Nat)
    (h : ks.length - p < fuel) :
    drain_scan fuel { store := st, keys := ks, pos := p }
      = (ks.drop p).map fun k =>
          { Key := k, Value := (mapGet k st.data).getD { data := "", expires_at := none } } := by
  induction fuel generalizing p with
  | zero => omega
  | succ f ih =>
    by_cases hp : p < ks.length
    · rw [List.drop_eq_getElem_cons hp, List.map_cons]
      simp only [drain_scan, KVScan.Next, List.getElem?_eq_getElem hp]
      rw [ih (p + 1) (by omega)]
    · have hnone : ks[p]? = none := by
        rw [List.getElem?_eq_none]
        omega
      simp only [drain_scan, KVScan.Next, hnone]
      rw [List.drop_eq_nil_of_le (by omega)]
      simp

theorem run_limit_all_length_le (fuel : Nat) :
    ∀ (mx count : Nat) (child : List next_res),
      (run_limit_all fuel mx count child).1.length ≤ mx - count := by
  induction fuel with
  | zero => intro mx count child; simp [run_limit_all]
  | succ f ih =>
    intro mx count child
    by_cases hc : mx ≤ count
    · simp only [run_limit_all, limit_next, if_pos hc]
      have := ih mx count child
      simp only [List.nil_append]
      omega
    · simp only [run_limit_all, limit_next, if_neg hc]
      match child with
      | [] =>
        have := ih mx count []
        simp only [List.nil_append]
        omega
      | next_res.row x :: rest =>
        have := ih mx (count + 1) rest
        simp only [List.singleton_append, List.length_cons]
        omega
      | next_res.eos :: rest =>
        have := ih mx count rest
        simp only [List.nil_append]
        omega
      | next_res.err e :: rest =>
        have := ih mx count rest
        simp only [List.nil_append]
        omega

theorem run_limit_pulls_le (fuel : Nat) :
    ∀ (mx count : Nat) (child : List next_res),
      (run_limit fuel mx count child).2 ≤ (run_limit fuel mx count child).1.length + 1 := by
  induction fuel with
  | zero => intro mx count child; simp [run_limit]
  | succ f ih =>
    intro mx count child
    by_cases hc : mx ≤ count
    · simp [run_limit, limit_next, if_pos hc]
    · simp only [run_limit, limit_next, if_neg hc]
      match child with
      | [] => simp
      | next_res.row x :: rest =>
        have := ih mx (count + 1) rest
        simp only [List.length_cons]
        omega
      | next_res.eos :: rest => simp
      | next_res.err e :: rest => simp

theorem filter_next_none (pred : Row → Bool) (child rest : List Row)
    (h : filter_next pred child = (none, rest)) : child.filter pred = [] := by
  induction child with
  | nil => simp
  | cons r tl ih =>
    by_cases hp : pred r
    · simp [filter_next, hp] at h
    · simp only [filter_next, if_neg hp] at h
      simp [List.filter_cons, hp, ih h]

theorem filter_next_some (pred : Row → Bool) (child : List Row) :
    ∀ (r : Row) (rest : List Row), filter_next pred child = (some r, rest) →
      child.filter pred = r :: rest.filter pred ∧ rest.length < child.length := by
  induction child with
  | nil => intro r rest h; simp [filter_next] at h
  | cons x tl ih =>
    intro r rest h
    by_cases hp : pred x
    · simp only [filter_next, if_pos hp, Prod.mk.injEq, Option.some.injEq] at h
      obtain ⟨hr, hrest⟩ := h
      subst hr
      subst hrest
      simp [List.filter_cons, hp]
    · simp only [filter_next, if_neg hp] at h
      have := ih r rest h
      refine ⟨?_, ?_⟩
      · simp [List.filter_cons, hp, this.1]
      · simp only [List.length_cons]
        omega

theorem run_filter_eq_filter (pred : Row → Bool) (fuel : Nat) :
    ∀ child : List Row, child.length < fuel →
      run_filter pred fuel child = child.filter pred := by
  induction fuel with
  | zero => intro child h; omega
  | succ f ih =>
    intro child h
    match hfn : filter_next pred child with
    | (none, rest) =>
      simp only [run_filter, hfn]
      exact (filter_next_none pred child rest hfn).symm
    | (some r, rest) =>
      obtain ⟨hfilt, hlen⟩ := filter_next_some pred child r rest hfn
      simp only [run_filter, hfn]
      rw [ih rest (by omega), hfilt]

/-- C1: the append path is claimed to write `<payload>|<crc32>\n` lines; the
record `log_op` actually builds for `SET a 1` is the bare `"SET a 1\n"`,
which contains no `|` separator at all (so no line of the claimed shape). -/
theorem c1_log_op_writes_no_crc :
    log_entry { name := "a" } operation_type.SET "1" 0 = "SET a 1\n"
    ∧ ("SET a 1\n".data.contains '|') = false := by
  constructor
  · rfl
  · decide

/-- C2: store construction is claimed to replay the existing WAL file into
the map; `New_Store` builds an empty map whatever the pre-existing file
content is, reading nothing. -/
theorem c2_new_store_never_replays (fn : String) (disk : List String) :
    (New_Store fn disk).data = [] := rfl

/-- C3: for every store state, when the WAL append fails each mutation
returns that error with the map (indeed the whole store) left exactly as
before the call; Expire additionally requires the key to exist for an
append to be attempted at all. -/
theorem c3_wal_append_failure_leaves_map (s : Store) (k : key) (ttl : Nat)
    (v : String) (now : Nat) (e : String) :
    Store.Set s k ttl v now (wal_outcome.io_error e) = (some e, s)
    ∧ Store.Delete s k (wal_outcome.io_error e) = (some e, s)
    ∧ (mapGet k s.data ≠ none →
        Store.Expire s k ttl now (wal_outcome.io_error e) = (some e, s)) := by
  refine ⟨rfl, rfl, fun h => ?_⟩
  unfold Store.Expire
  match hres : mapGet k s.data with
  | none => exact absurd hres h
  | some val => rfl

theorem c3_wal_append_failure_leaves_map_witness :
    Store.Set (New_Store "w" []) { name := "k" } 1 "v" 0 (wal_outcome.io_error "boom")
      = (some "boom", New_Store "w" [])
    ∧ Store.Delete (New_Store "w" []) { name := "k" } (wal_outcome.io_error "boom")
      = (some "boom", New_Store "w" [])
    ∧ Store.Expire
        { data := [({ name := "k" }, { data := "v", expires_at := none })],
          wal := { filename := "w", entries := [] } }
        { name := "k" } 1 0 (wal_outcome.io_error "boom")
      = (some "boom",
          { data := [({ name := "k" }, { data := "v", expires_at := none })],
            wal := { filename := "w", entries := [] } }) := by
  refine ⟨(c3_wal_append_failure_leaves_map (New_Store "w" []) { name := "k" } 1 "v" 0 "boom").1,
    (c3_wal_append_failure_leaves_map (New_Store "w" []) { name := "k" } 1 "v" 0 "boom").2.1,
    (c3_wal_append_failure_leaves_map
      { data := [({ name := "k" }, { data := "v", expires_at := none })],
        wal := { filename := "w", entries := [] } }
      { name := "k" } 1 "v" 0 "boom").2.2 (by decide)⟩

/-- C4 counterexample: the claim says a key set at time 0 with ttl 5 is
not-found at every instant in [5, ∞); `Get` at the instant 5 itself (the
exact expiry instant, since Go expires only strictly After `expires_at`)
still returns the value as found. -/
theorem c4_boundary_instant_still_found :
    Store.Get (Store.Set (New_Store "w" []) { name := "k" } 5 "v" 0 wal_outcome.ok).2
      { name := "k" } 5 = ("v", true) := by
  decide

/-- C4 amended: a key set at time t0 with non-zero ttl t is found at every
instant in [t0, t0 + t] (inclusive of the expiry instant) and not-found at
every instant strictly after t0 + t; with ttl 0 it is found at every
instant. -/
theorem c4_ttl_window (s : Store) (k : key) (v : String) (t t0 n1 n2 n3 : Nat)
    (ht : t ≠ 0) (hlo : t0 ≤ n1) (h2 : n1 ≤ t0 + t) :
    Store.Get (Store.Set s k t v t0 wal_outcome.ok).2 k n1 = (v, true)
    ∧ (t0 + t < n2 →
        Store.Get (Store.Set s k t v t0 wal_outcome.ok).2 k n2 = ("", false))
    ∧ Store.Get (Store.Set s k 0 v t0 wal_outcome.ok).2 k n3 = (v, true) := by
  have hset : mapGet k (Store.Set s k t v t0 wal_outcome.ok).2.data
      = some { data := v, expires_at := some (t0 + t) } := by
    simp only [Store.Set, wal.log_op]
    rw [if_neg ht]
    exact mapGet_mapSet_self ..
  have hset0 : mapGet k (Store.Set s k 0 v t0 wal_outcome.ok).2.data
      = some { data := v, expires_at := none } := by
    simp only [Store.Set, wal.log_op, if_pos rfl]
    exact mapGet_mapSet_self ..
  refine ⟨?_, fun hn2 => ?_, ?_⟩
  · simp only [Store.Get, hset]
    rw [if_neg (by omega)]
  · simp only [Store.Get, hset]
    rw [if_pos (by omega)]
  · simp only [Store.Get, hset0]

theorem c4_ttl_window_witness :
    Store.Get (Store.Set (New_Store "w" []) { name := "k" } 5 "v" 0 wal_outcome.ok).2
      { name := "k" } 3 = ("v", true)
    ∧ Store.Get (Store.Set (New_Store "w" []) { name := "k" } 5 "v" 0 wal_outcome.ok).2
      { name := "k" } 7 = ("", false)
    ∧ Store.Get (Store.Set (New_Store "w" []) { name := "k" } 0 "v" 0 wal_outcome.ok).2
      { name := "k" } 9 = ("v", true) := by
  have h := c4_ttl_window (New_Store "w" []) { name := "k" } "v" 5 0 3 7 9
    (by decide) (by decide) (by decide)
  exact ⟨h.1, h.2.1 (by decide), h.2.2⟩

/-- C5 counterexample: at open time T = 5 the key below is present and
non-expired (Get reports it found, since its `expires_at` = 5 has not
strictly passed), yet `KVScan.Open` at T = 5 captures no key at all (its
capture test `expires_at.After(now)` is strict). -/
theorem c5_open_misses_boundary_key :
    Store.Get
      { data := [({ name := "k" }, { data := "v", expires_at := some 5 })],
        wal := { filename := "w", entries := [] } } { name := "k" } 5 = ("v", true)
    ∧ (KVScan.Open (NewKVScan
        { data := [({ name := "k" }, { data := "v", expires_at := some 5 })],
          wal := { filename := "w", entries := [] } }) 5).keys = [] := by
  decide

/-- C5 amended: a KVScan opened at time T captures exactly the keys whose
entry has no expiry or an expiry strictly after T (an entry whose
`expires_at` equals T exactly is skipped, although `Get` still reports it
found), and draining it with `Next` emits exactly one row per captured
key, in capture order with the entry stored for that key, before
signalling end-of-stream; the emitted rows are determined entirely by the
open-time capture. -/
theorem c5_scan_snapshot (s : Store) (now : Nat)
    (hnd : (s.data.map Prod.fst).Nodup) :
    (KVScan.Open (NewKVScan s) now).keys
      = (s.data.filter fun p => scan_keep p.2 now).map Prod.fst
    ∧ drain_scan ((KVScan.Open (NewKVScan s) now).keys.length + 1)
        (KVScan.Open (NewKVScan s) now)
      = (s.data.filter fun p => scan_keep p.2 now).map fun p =>
          { Key := p.1, Value := p.2 } := by
  refine ⟨rfl, ?_⟩
  have hopen : KVScan.Open (NewKVScan s) now
      = { store := s,
          keys := (s.data.filter fun p => scan_keep p.2 now).map Prod.fst,
          pos := 0 } := rfl
  rw [hopen]
  rw [drain_scan_eq s ((s.data.filter fun p => scan_keep p.2 now).map Prod.fst) 0 _
    (by simp)]
  rw [List.drop_zero, List.map_map]
  refine List.map_congr_left ?_
  intro p hp
  have hmem : p ∈ s.data := List.mem_of_mem_filter hp
  have : mapGet p.1 s.data = some p.2 :=
    mapGet_of_mem_nodup p.1 p.2 s.data hnd (by exact hmem)
  simp [Function.comp, this]

theorem c5_scan_snapshot_witness :
    (KVScan.Open (NewKVScan
        { data := [({ name := "a" }, { data := "1", expires_at := none }),
                   ({ name := "b" }, { data := "2", expires_at := some 3 })],
          wal := { filename := "w", entries := [] } }) 7).keys = [{ name := "a" }]
    ∧ drain_scan 2 (KVScan.Open (NewKVScan
        { data := [({ name := "a" }, { data := "1", expires_at := none }),
                   ({ name := "b" }, { data := "2", expires_at := some 3 })],
          wal := { filename := "w", entries := [] } }) 7)
      = [{ Key := { name := "a" }, Value := { data := "1", expires_at := none } }] := by
  have h := c5_scan_snapshot
    { data := [({ name := "a" }, { data := "1", expires_at := none }),
               ({ name := "b" }, { data := "2", expires_at := some 3 })],
      wal := { filename := "w", entries := [] } } 7 (by decide)
  exact ⟨h.1, h.2⟩

/-- C6: a Limit over any child (modelled by its successive `Next` answers)
emits at most `mx` rows however long the caller keeps pulling; with the
counter at or past `mx` a `Next` answers end-of-stream without pulling the
child and without changing any state; and a caller that stops at the
first non-row answer performs at most one child pull more than the rows
it obtained. -/
theorem c6_limit_bound (mx count j fuel : Nat) (child : List next_res) :
    (run_limit_all fuel mx 0 child).1.length ≤ mx
    ∧ limit_next mx (mx + j) child = (next_res.eos, mx + j, child, false)
    ∧ (run_limit fuel mx count child).2 ≤ (run_limit fuel mx count child).1.length + 1 := by
  refine ⟨?_, ?_, run_limit_pulls_le fuel mx count child⟩
  · have := run_limit_all_length_le fuel mx 0 child
    omega
  · simp [limit_next, Nat.le_add_right]

/-- C7: draining a Filter over a child that emits `child` and then
end-of-stream yields exactly the subsequence of the child rows on which
the predicate holds (so in particular every emitted row satisfies the
predicate and no satisfying row is dropped). -/
theorem c7_filter_subsequence (pred : Row → Bool) (child : List Row) :
    run_filter pred (child.length + 1) child = child.filter pred :=
  run_filter_eq_filter pred (child.length + 1) child (by omega)

/-- C8: a key physically present whose `expires_at` has strictly passed is
still reported by `Exists` (which tests bare map membership and never
consults expiry) while `Get` on the same key at the same instant reports
not-found. -/
theorem c8_exists_ignores_expiry (s : Store) (k : key) (v : String) (e now : Nat)
    (hmem : mapGet k s.data = some { data := v, expires_at := some e })
    (hpast : e < now) :
    Store.Exists s k = true ∧ Store.Get s k now = ("", false) := by
  constructor
  · simp [Store.Exists, hmem]
  · simp [Store.Get, hmem, if_pos hpast]

theorem c8_exists_ignores_expiry_witness :
    Store.Exists
      { data := [({ name := "k" }, { data := "v", expires_at := some 3 })],
        wal := { filename := "w", entries := [] } } { name := "k" } = true
    ∧ Store.Get
      { data := [({ name := "k" }, { data := "v", expires_at := some 3 })],
        wal := { filename := "w", entries := [] } } { name := "k" } 9 = ("", false) :=
  c8_exists_ignores_expiry
    { data := [({ name := "k" }, { data := "v", expires_at := some 3 })],
      wal := { filename := "w", entries := [] } }
    { name := "k" } "v" 3 9 (by decide) (by decide)

/-- C9: Expire on a key absent from the map returns the NotFound error with
the whole store (map and WAL file content alike) exactly as before, no
record being appended; on a present key with a successful append it
returns no error and unconditionally replaces the stored `expires_at` by
now + ttl. -/
theorem c9_expire_not_found (s : Store) (k : key) (ttl now : Nat)
    (oc : wal_outcome) (val : value) :
    (mapGet k s.data = none →
      Store.Expire s k ttl now oc = (some "the key does not exist", s))
    ∧ (mapGet k s.data = some val →
        (Store.Expire s k ttl now wal_outcome.ok).1 = none
        ∧ mapGet k (Store.Expire s k ttl now wal_outcome.ok).2.data
            = some { data := val.data, expires_at := some (now + ttl) }) := by
  constructor
  · intro h
    simp [Store.Expire, h]
  · intro h
    simp [Store.Expire, h, wal.log_op, mapGet_mapSet_self]

theorem c9_expire_not_found_witness :
    Store.Expire (New_Store "w" []) { name := "ghost" } 60 0 wal_outcome.ok
      = (some "the key does not exist", New_Store "w" [])
    ∧ (Store.Expire
        { data := [({ name := "k" }, { data := "v", expires_at := some 3 })],
          wal := { filename := "w", entries := [] } }
        { name := "k" } 60 10 wal_outcome.ok).1 = none
    ∧ mapGet { name := "k" } (Store.Expire
        { data := [({ name := "k" }, { data := "v", expires_at := some 3 })],
          wal := { filename := "w", entries := [] } }
        { name := "k" } 60 10 wal_outcome.ok).2.data
      = some { data := "v", expires_at := some 70 } := by
  refine ⟨(c9_expire_not_found (New_Store "w" []) { name := "ghost" } 60 0 wal_outcome.ok
      { data := "", expires_at := none }).1 (by decide), ?_, ?_⟩
  · exact ((c9_expire_not_found
      { data := [({ name := "k" }, { data := "v", expires_at := some 3 })],
        wal := { filename := "w", entries := [] } }
      { name := "k" } 60 10 wal_outcome.ok { data := "v", expires_at := some 3 }).2
      (by decide)).1
  · exact ((c9_expire_not_found
      { data := [({ name := "k" }, { data := "v", expires_at := some 3 })],
        wal := { filename := "w", entries := [] } }
      { name := "k" } 60 10 wal_outcome.ok { data := "v", expires_at := some 3 }).2
      (by decide)).2

/-- C10 counterexample: the claim says any token count outside the SET
shape (2 or 3 payload tokens) is rejected without mutating the store;
`Process` handed `SET k v 1s junk` (4 payload tokens) nevertheless stores
the key -- the extra tokens are silently ignored and the ttl stays 0. -/
theorem c10_set_extra_tokens_accepted :
    (Store.Process (New_Store "wal.log" []) ["SET", "k", "v", "1s", "junk"]
      (fun _ => none) 0 wal_outcome.ok).data
      = [({ name := "k" }, { data := "v", expires_at := none })] := by
  decide

/-- C10 amended: the arity check rejects (store unchanged) SET with fewer
than 2 payload tokens, DELETE with a count other than 1 and EXPIRE with a
count other than 2, and GET/TTL/EXISTS never mutate at any count; SET with
4 or more payload tokens is however accepted, the tokens past the value
being ignored and the ttl taken as 0 (only exactly 3 payload tokens get
the third parsed as a ttl); verb matching is case-insensitive. -/
theorem c10_process_arity (s : Store) (pd : String → Option Nat) (now : Nat)
    (oc : wal_outcome) (k v a b x y t : String) (rest more r2 : List String) :
    Store.Process s ["SET"] pd now oc = s
    ∧ Store.Process s ["SET", k] pd now oc = s
    ∧ Store.Process s ("SET" :: k :: v :: a :: b :: rest) pd now oc
        = (Store.Set s { name := k } 0 v now oc).2
    ∧ Store.Process s ["DELETE"] pd now oc = s
    ∧ Store.Process s ("DELETE" :: x :: y :: more) pd now oc = s
    ∧ Store.Process s ["EXPIRE"] pd now oc = s
    ∧ Store.Process s ["EXPIRE", x] pd now oc = s
    ∧ Store.Process s ("EXPIRE" :: x :: y :: t :: more) pd now oc = s
    ∧ Store.Process s ("GET" :: r2) pd now oc = s
    ∧ Store.Process s ("TTL" :: r2) pd now oc = s
    ∧ Store.Process s ("EXISTS" :: r2) pd now oc = s
    ∧ Store.Process s ("set" :: rest) pd now oc
        = Store.Process s ("SET" :: rest) pd now oc := by
  have hdel : to_upper "DELETE" = "DELETE" := by decide
  have hexp : to_upper "EXPIRE" = "EXPIRE" := by decide
  have hget : to_upper "GET" = "GET" := by decide
  have httl : to_upper "TTL" = "TTL" := by decide
  have hexi : to_upper "EXISTS" = "EXISTS" := by decide
  have hcase : to_upper "set" = to_upper "SET" := by decide
  refine ⟨rfl, rfl, rfl, ?_, ?_, ?_, ?_, ?_, ?_, ?_, ?_, ?_⟩
  · simp [Store.Process, hdel]
  · simp [Store.Process, hdel]
  · simp [Store.Process, hexp]
  · simp [Store.Process, hexp]
  · simp [Store.Process, hexp]
  · simp [Store.Process, hget]
  · simp [Store.Process, httl]
  · simp [Store.Process, hexi]
  · simp only [Store.Process, hcase]
